import Mathlib

/-!
# utxx: variant tree readers and writers, include resolver, wildcard matching

A shallow embedding of `include/utxx/variant_tree_parser.hpp` and of
`wildcard_match` from `src/string.cpp`.

Conventions of the embedding.

* A C++ function that may throw returns a pair: the outcome of the call
  (`Except error Unit`) and the state of the object it received by reference
  after the call.  In this way "the destination after a failed call" is a value
  one can talk about.
* Code that the two files call but do not contain (the SCON reader class, the
  Boost property-tree grammar parsers, `translate_data`, `dump`, the
  Boost.Filesystem queries, opening of files) is passed in as a parameter.
* A pointer into a NUL-terminated string is represented by the characters from
  the pointed position up to the terminator; reading through the pointer gives
  the first of them, or NUL when none is left.
-/

namespace utxx

/-! ## Data model -/

/-- Modelled from the spec: the header `utxx/variant.hpp` is missing; a Variant
holds exactly one of empty, string, integer, floating point (kept here as its
textual form), boolean. -/
inductive variant where
  | null : variant
  | string (s : String) : variant
  | int (n : Int) : variant
  | double (text : String) : variant
  | bool (b : Bool) : variant
  deriving DecidableEq, Repr

/-- Modelled from the spec: the header `utxx/variant_tree.hpp` is missing; a
node carries a Variant and an ordered list of keyed children, duplicate keys
allowed. -/
inductive variant_tree where
  | node (data : variant) (children : List (String × variant_tree)) : variant_tree

/-- The default constructed tree `basic_variant_tree<Ch> tree;`. -/
def variant_tree.empty : variant_tree := variant_tree.node variant.null []

/-- The exceptions that leave the functions of the header. -/
inductive error where
  | file_parser_error (message : String) (filename : String) (line : Nat) : error
  | runtime_error (what : String) : error
  | other (what : String) : error
  deriving DecidableEq, Repr

/-- The state of a `std::basic_ios`: the three state bits, and the characters
that went through the stream. -/
structure stream where
  badbit : Bool
  failbit : Bool
  eofbit : Bool
  chars : List Char
  deriving DecidableEq, Repr

/-- The test `!stream`, that is `stream.fail()`. -/
def stream.not (s : stream) : Bool := s.badbit || s.failbit

/-- The test `stream.good()`. -/
def stream.good (s : stream) : Bool := !(s.badbit || s.failbit || s.eofbit)

/-- The type `boost::function<bool (std::string& a_filename)>`: the returned
flag and the value of the string argument after the call. -/
abbrev resolver_fn := String → Bool × String

/-- The outcome of a call that received the destination tree by reference. -/
abbrev tree_call := Except error Unit × variant_tree

/-! ## scon_writer_settings -/

/-- Conversion of a 32-bit unsigned value to `int` (two's complement). -/
def unsigned_to_int (n : Nat) : Int :=
  if n % 2 ^ 32 < 2 ^ 31 then ((n % 2 ^ 32 : Nat) : Int) else ((n % 2 ^ 32 : Nat) : Int) - 2 ^ 32

/-- The struct `scon_writer_settings<Ch>`; `tab_width` is an `int`. -/
structure scon_writer_settings where
  tab_width : Int
  show_types : Bool
  show_braces : Bool
  indent_char : Char
  deriving DecidableEq, Repr

/-- The constructor of `scon_writer_settings`: `a_tab_width` is `unsigned`, and
initialises the `int` member. -/
def scon_writer_settings.ctor (a_tab_width : Nat) (a_show_types : Bool)
    (a_show_braces : Bool) (a_indent_char : Char) : scon_writer_settings :=
  ⟨unsigned_to_int (a_tab_width % 2 ^ 32), a_show_types, a_show_braces, a_indent_char⟩

/-- The constructor called with no argument: every parameter takes its
default. -/
def scon_writer_settings.ctor_default : scon_writer_settings :=
  scon_writer_settings.ctor 2 false true ' '

/-! ## inc_file_resolver -/

/-- The Boost.Filesystem operations used by the header together with the state
of the file system they consult.  `append d n` is `(path(d) / n).string()`. -/
structure filesystem where
  is_absolute : String → Bool
  basename : String → String
  extension : String → String
  append : String → String → String
  file_exists : String → Bool

/-- The class `inc_file_resolver<Ch>`: its only member is the list of
directories. -/
structure inc_file_resolver where
  m_dirs : List String
  deriving DecidableEq, Repr

/-- The local `name` of `inc_file_resolver::operator()`. -/
def inc_file_resolver.name (fs : filesystem) (a_filename : String) : String :=
  if fs.is_absolute a_filename then fs.basename a_filename else a_filename

/-- The `for` loop of `inc_file_resolver::operator()` over the directories that
remain: the returned flag and the value of `a_filename` after the call. -/
def inc_file_resolver.search (fs : filesystem) (name : String) (a_filename : String) :
    List String → Bool × String
  | [] => (false, a_filename)
  | it :: rest =>
    let inc_file := fs.append it name
    if fs.file_exists inc_file then (true, inc_file)
    else inc_file_resolver.search fs name a_filename rest

/-- The functor `inc_file_resolver::operator()`: the returned flag, the value
of `a_filename` after the call and the object after the call. -/
def inc_file_resolver.call (fs : filesystem) (self : inc_file_resolver) (a_filename : String) :
    Bool × String × inc_file_resolver :=
  let name := inc_file_resolver.name fs a_filename
  let r := inc_file_resolver.search fs name a_filename self.m_dirs
  (r.1, r.2, self)

/-- The resolver as the `boost::function` that the readers receive. -/
def inc_file_resolver.as_function (fs : filesystem) (self : inc_file_resolver) : resolver_fn :=
  fun a_filename =>
    ((inc_file_resolver.call fs self a_filename).1, (inc_file_resolver.call fs self a_filename).2.1)

/-! ## read_scon -/

/-- The constructor of `detail::scon_reader`, which is not part of the header:
it receives the stream, the tree to fill, the file name, the line number, the
current line, the nesting level and the resolver, and either fills the tree or
throws. -/
abbrev scon_reader_fn :=
  stream → variant_tree → String → Nat → String → Nat → resolver_fn → Except error variant_tree

/-- The stream overload of `read_scon`. -/
def read_scon (scon_reader : scon_reader_fn) (a_stream : stream) (a_tree : variant_tree)
    (a_filename : String) (a_inc_filename_resolver : resolver_fn) : tree_call :=
  let tree := variant_tree.empty
  let lineno := 0
  let line := ""
  match scon_reader a_stream tree a_filename lineno line 0 a_inc_filename_resolver with
  | Except.error e => (Except.error e, a_tree)
  | Except.ok tree => (Except.ok (), tree)

/-- The file overload of `read_scon`; `open_in` is the constructor of
`std::basic_ifstream` on a file name. -/
def read_scon_file (open_in : String → stream) (scon_reader : scon_reader_fn)
    (a_filename : String) (a_tree : variant_tree) (a_inc_filename_resolver : resolver_fn) :
    tree_call :=
  let stream := open_in a_filename
  if stream.not then
    (Except.error (error.file_parser_error "cannot open file for reading" a_filename 0), a_tree)
  else
    read_scon scon_reader stream a_tree a_filename a_inc_filename_resolver

/-! ## Adapters of the Boost property-tree formats -/

/-- A Boost grammar parser `read_xxx(a_src, pt)`: it works on the tree it is
given by reference. -/
abbrev grammar_reader (Source : Type) := Source → variant_tree → tree_call

/-- The static member `basic_variant_tree<Ch>::translate_data(a_tree, tr)`,
which works on the tree in place. -/
abbrev translate_fn := variant_tree → tree_call

/-- The function `read_info`: `pt` is a reference to `a_tree` itself. -/
def read_info {Source : Type} (info_parse : grammar_reader Source)
    (translate_data : translate_fn) (a_src : Source) (a_tree : variant_tree) : tree_call :=
  match info_parse a_src a_tree with
  | (Except.error e, pt) => (Except.error e, pt)
  | (Except.ok (), pt) => translate_data pt

/-- The function `read_xml`: `pt` is a reference to `a_tree` itself. -/
def read_xml {Source : Type} (xml_parse : Source → variant_tree → Int → tree_call)
    (translate_data : translate_fn) (a_src : Source) (a_tree : variant_tree) (a_flags : Int) :
    tree_call :=
  match xml_parse a_src a_tree a_flags with
  | (Except.error e, pt) => (Except.error e, pt)
  | (Except.ok (), pt) => translate_data pt

/-- The function `read_ini`: `pt` is a reference to `a_tree` itself; the flags
are not used. -/
def read_ini {Source : Type} (ini_parse : grammar_reader Source)
    (translate_data : translate_fn) (a_src : Source) (a_tree : variant_tree) (_a_flags : Int) :
    tree_call :=
  match ini_parse a_src a_tree with
  | (Except.error e, pt) => (Except.error e, pt)
  | (Except.ok (), pt) => translate_data pt

/-! ## read_config_file -/

/-- What `read_config_file` calls and the header does not contain. -/
structure readers where
  fs : filesystem
  open_in : String → stream
  scon_reader : scon_reader_fn
  ini_parse : grammar_reader String
  xml_parse : String → variant_tree → Int → tree_call
  translate_data : translate_fn

/-- The function `read_config_file`. -/
def read_config_file (rd : readers) (a_filename : String) (a_tree : variant_tree)
    (a_inc_filename_resolver : resolver_fn) (a_flags : Int) : tree_call :=
  let ext := rd.fs.extension a_filename
  if ext = ".config" ∨ ext = ".conf" ∨ ext = ".cfg" ∨ ext = ".scon" then
    read_scon_file rd.open_in rd.scon_reader a_filename a_tree a_inc_filename_resolver
  else if ext = ".ini" then
    read_ini rd.ini_parse rd.translate_data a_filename a_tree 0
  else if ext = ".xml" then
    read_xml rd.xml_parse rd.translate_data a_filename a_tree a_flags
  else
    (Except.error (error.runtime_error "Configuration file extension not supported!"), a_tree)

/-! ## write_scon -/

/-- The member `basic_variant_tree<Ch>::dump`, which is not part of the header:
it receives the stream, the tab width, the two flags and the indent character,
writes to the stream and may throw. -/
abbrev dump_fn := variant_tree → stream → Int → Bool → Bool → Char → Except error Unit × stream

/-- The stream overload of `write_scon`. -/
def write_scon (dump : dump_fn) (a_stream : stream) (a_tree : variant_tree)
    (a_settings : scon_writer_settings) : Except error Unit × stream :=
  dump a_tree a_stream a_settings.tab_width a_settings.show_types a_settings.show_braces
    a_settings.indent_char

/-- The file overload of `write_scon`; `open_out` is the constructor of
`std::basic_ofstream` on a file name. -/
def write_scon_file (open_out : String → stream) (dump : dump_fn) (a_filename : String)
    (a_tree : variant_tree) (a_settings : scon_writer_settings) : Except error Unit × stream :=
  let stream := open_out a_filename
  if stream.not then
    (Except.error (error.file_parser_error "cannot open file for writing" a_filename 0), stream)
  else
    match write_scon dump stream a_tree a_settings with
    | (Except.error e, stream) => (Except.error e, stream)
    | (Except.ok (), stream) =>
      if !stream.good then
        (Except.error (error.file_parser_error "write error" a_filename 0), stream)
      else
        (Except.ok (), stream)

/-! ## A POSIX instance of the Boost.Filesystem operations -/

/-- The last element of a POSIX path that does not end with a separator: the
characters after the last `/`. -/
def posix_filename (p : List Char) : List Char :=
  (p.reverse.takeWhile (fun c => c != '/')).reverse

/-- The function `boost::filesystem::basename`, documented as
`p.stem().string()`: the last element of the path up to its last dot, the dot
and what follows it left out (`.` and `..` are returned whole). -/
def posix_basename (p : List Char) : List Char :=
  let leaf := posix_filename p
  if leaf = ['.'] ∨ leaf = ['.', '.'] ∨ '.' ∉ leaf then leaf
  else ((leaf.reverse.dropWhile (fun c => c != '.')).drop 1).reverse

/-- The function `boost::filesystem::extension`, documented as
`p.extension().string()`: the last element of the path from its last dot on,
empty when it has no dot or is `.` or `..`. -/
def posix_extension (p : List Char) : List Char :=
  let leaf := posix_filename p
  if leaf = ['.'] ∨ leaf = ['.', '.'] ∨ '.' ∉ leaf then []
  else '.' :: (leaf.reverse.takeWhile (fun c => c != '.')).reverse

/-- The operator `path(d) / n` on two strings: a separator is put between them
unless one of them is empty, `d` ends with one or `n` starts with one. -/
def posix_append (d n : List Char) : List Char :=
  if n = [] then d
  else if d = [] then n
  else if d.getLast? = some '/' ∨ n.head? = some '/' then d ++ n
  else d ++ '/' :: n

/-- The Boost.Filesystem operations on POSIX paths over a file system that
holds exactly the listed files. -/
def posix (files : List String) : filesystem where
  is_absolute := fun p => p.data.head? == some '/'
  basename := fun p => String.mk (posix_basename p.data)
  extension := fun p => String.mk (posix_extension p.data)
  append := fun d n => String.mk (posix_append d.data n.data)
  file_exists := fun p => files.contains p

/-! ## The translating pass and collaborators used to evaluate the adapters -/

/-- The value of a string of decimal digits. -/
def digits_value (cs : List Char) : Nat :=
  cs.foldl (fun n c => 10 * n + (c.toNat - '0'.toNat)) 0

/-- Modelled from the spec: the registered string translator of
`utxx/variant_tree.hpp` is missing; it is a total function from text to
Variant: `true` and `false` become booleans, a string of digits an integer,
digits with one dot between them a floating point value, and any other text a
string. -/
def translate_text (s : String) : variant :=
  if s = "true" then variant.bool true
  else if s = "false" then variant.bool false
  else if s.data ≠ [] ∧ s.data.all Char.isDigit then variant.int (digits_value s.data)
  else
    let whole := s.data.takeWhile Char.isDigit
    let rest := s.data.dropWhile Char.isDigit
    if whole ≠ [] ∧ rest.head? = some '.' ∧ rest.tail ≠ [] ∧ rest.tail.all Char.isDigit then
      variant.double s
    else variant.string s

mutual
/-- Modelled from the spec: `basic_variant_tree<Ch>::translate_data` of
`utxx/variant_tree.hpp` is missing; it is one pass over the tree that turns the
text of every node into a Variant with the string translator. -/
def translate_tree : variant_tree → variant_tree
  | variant_tree.node data children =>
    variant_tree.node
      (match data with
        | variant.string s => translate_text s
        | v => v)
      (translate_children children)
/-- The pass of `translate_tree` over the children of a node, in their
order. -/
def translate_children : List (String × variant_tree) → List (String × variant_tree)
  | [] => []
  | (key, child) :: rest => (key, translate_tree child) :: translate_children rest
end

/-- The translating pass as the adapters call it: it returns, with the
translated tree in place of the one it received. -/
def translate_data : translate_fn := fun pt => (Except.ok (), translate_tree pt)

/-- A destination tree that already holds a value. -/
def sample_old_tree : variant_tree := variant_tree.node (variant.string "old") []

/-- The tree of text leaves that a grammar parser builds for two keys. -/
def sample_parsed_tree : variant_tree :=
  variant_tree.node variant.null
    [("key", variant_tree.node (variant.string "1.5x") []),
      ("count", variant_tree.node (variant.string "123") [])]

/-- A grammar parser with the guarantee that Boost documents for its
`read_ini`, `read_info` and `read_xml` (it builds a local tree and swaps it in
last): a source named `bad` is rejected and the tree left as it was, any other
source replaces the contents of the tree. -/
def sample_parse : grammar_reader String := fun a_src pt =>
  if a_src = "bad" then (Except.error (error.file_parser_error "syntax error" a_src 1), pt)
  else (Except.ok (), sample_parsed_tree)

/-- The same parser with the flags of the XML grammar. -/
def sample_xml_parse : String → variant_tree → Int → tree_call :=
  fun a_src pt _ => sample_parse a_src pt

/-- A SCON reader that accepts every stream and leaves the tree as it got
it. -/
def sample_scon_reader : scon_reader_fn := fun _ tree _ _ _ _ _ => Except.ok tree

/-- A stream on a file that was opened. -/
def sample_stream : stream := ⟨false, false, false, []⟩

/-- Collaborators for `read_config_file` over an empty POSIX file system. -/
def sample_readers : readers where
  fs := posix []
  open_in := fun _ => sample_stream
  scon_reader := sample_scon_reader
  ini_parse := sample_parse
  xml_parse := sample_xml_parse
  translate_data := translate_data

/-- A resolver that finds nothing. -/
def sample_resolver : resolver_fn := fun a_filename => (false, a_filename)

/-- A dump that writes one character and keeps the stream good. -/
def sample_dump : dump_fn :=
  fun _ s _ _ _ _ => (Except.ok (), ⟨s.badbit, s.failbit, s.eofbit, s.chars ++ ['x']⟩)

/-! ## wildcard_match -/

/-- The terminator of a C string. -/
def NUL : Char := Char.ofNat 0

/-- Reading through a pointer into a NUL-terminated string: `*p`. -/
def deref (p : List Char) : Char := p.headD NUL

/-- How a loop was left: by a `return` of the function, or by its condition
becoming false, with the values of the variables at that point. -/
inductive flow (σ : Type) where
  | returned (b : Bool) : flow σ
  | done (s : σ) : flow σ

/-- The first `while` loop of `wildcard_match`; `none` when the fuel runs
out. -/
def first_loop : Nat → List Char → List Char → Option (flow (List Char × List Char))
  | 0, _, _ => none
  | fuel + 1, a_input, a_pattern =>
    if deref a_input ≠ NUL ∧ deref a_pattern ≠ '*' then
      if deref a_pattern ≠ deref a_input ∧ deref a_pattern ≠ '?' then
        some (flow.returned false)
      else
        first_loop fuel a_input.tail a_pattern.tail
    else
      some (flow.done (a_input, a_pattern))

/-- The second `while` loop of `wildcard_match`, with the pointers `ip` and
`pp` (`none` is `nullptr`); `none` when the fuel runs out or a null pointer
would be used. -/
def second_loop : Nat → List Char → List Char → Option (List Char) → Option (List Char) →
    Option (flow (List Char))
  | 0, _, _, _, _ => none
  | fuel + 1, a_input, a_pattern, ip, pp =>
    if deref a_input ≠ NUL then
      if deref a_pattern = '*' then
        if deref a_pattern.tail = NUL then
          some (flow.returned true)
        else
          second_loop fuel a_input a_pattern.tail (some a_input.tail) (some a_pattern.tail)
      else if deref a_pattern = deref a_input ∨ deref a_pattern = '?' then
        second_loop fuel a_input.tail a_pattern.tail ip pp
      else
        match pp, ip with
        | some pp0, some ip0 => second_loop fuel ip0 pp0 (some ip0.tail) (some pp0)
        | _, _ => none
    else
      some (flow.done a_pattern)

/-- The third `while` loop of `wildcard_match` and the final `return`. -/
def third_loop : Nat → List Char → Option Bool
  | 0, _ => none
  | fuel + 1, a_pattern =>
    if deref a_pattern = '*' then third_loop fuel a_pattern.tail
    else some (deref a_pattern == NUL)

/-- The function `wildcard_match`, each loop running at most `fuel`
iterations. -/
def wildcard_match (fuel : Nat) (a_input a_pattern : List Char) : Option Bool :=
  match first_loop fuel a_input a_pattern with
  | none => none
  | some (flow.returned b) => some b
  | some (flow.done (a_input, a_pattern)) =>
    match second_loop fuel a_input a_pattern none none with
    | none => none
    | some (flow.returned b) => some b
    | some (flow.done a_pattern) => third_loop fuel a_pattern

/-- A number of iterations that is enough for every loop of
`wildcard_match`. -/
def wildcard_match_bound (a_input a_pattern : List Char) : Nat :=
  (a_input.length + 1) * (a_pattern.length + 2) + 1

/-- The reference meaning of a pattern, `glob_match pattern input`: `*` stands
for any sequence of characters, also the empty one, `?` for exactly one
character, and any other character for itself. -/
inductive glob_match : List Char → List Char → Prop where
  | nil : glob_match [] []
  | star (p s t : List Char) : glob_match p t → glob_match ('*' :: p) (s ++ t)
  | any (p : List Char) (c : Char) (s : List Char) : glob_match p s → glob_match ('?' :: p) (c :: s)
  | same (c : Char) (p s : List Char) : c ≠ '*' → c ≠ '?' → glob_match p s →
      glob_match (c :: p) (c :: s)

/-- Pointwise match of a piece of pattern without star against a piece of
input of the same length. -/
def seg (m n : List Char) : Prop :=
  List.Forall₂ (fun a c => a ≠ '*' ∧ (a = '?' ∨ a = c)) m n

/-- What the first loop establishes. -/
def first_post (inp pat : List Char) : flow (List Char × List Char) → Prop
  | flow.returned b => b = false ∧ ¬ glob_match pat inp
  | flow.done (i, p) =>
    (glob_match pat inp ↔ glob_match p i) ∧ (i ≠ [] → ∃ q, p = '*' :: q) ∧
      NUL ∉ i ∧ NUL ∉ p ∧ i.length ≤ inp.length ∧ p.length ≤ pat.length

/-- The invariant of the second loop once a star has been passed: `pp0` is the
pattern after that star, `c :: ip0` the input where the current attempt
started, and the pieces consumed since then match each other. -/
def second_inv (Q : Prop) (inp pat ip0 pp0 : List Char) : Prop :=
  ∃ m n c, pp0 = m ++ pat ∧ c :: ip0 = n ++ inp ∧ seg m n ∧
    (Q ↔ glob_match ('*' :: pp0) (c :: ip0)) ∧ NUL ∉ pp0 ∧ NUL ∉ c :: ip0

/-- What the second loop establishes. -/
def second_post (Q : Prop) (L : Nat) : flow (List Char) → Prop
  | flow.returned b => (b = true ↔ Q)
  | flow.done p => (Q ↔ glob_match p []) ∧ NUL ∉ p ∧ p.length ≤ L

/-! ## Theorems: wildcard_match -/

theorem glob_nil_iff (s : List Char) : glob_match [] s ↔ s = [] := by
  constructor
  · intro h; cases h; rfl
  · rintro rfl; exact glob_match.nil

theorem glob_star_iff (p s : List Char) :
    glob_match ('*' :: p) s ↔ ∃ a c, s = a ++ c ∧ glob_match p c := by
  constructor
  · intro h
    cases h with
    | star _ a c h => exact ⟨a, c, rfl, h⟩
    | same _ _ _ h1 _ _ => exact absurd rfl h1
  · rintro ⟨a, c, rfl, h⟩
    exact glob_match.star p a c h

theorem glob_cons_iff (a : Char) (p s : List Char) (ha : a ≠ '*') :
    glob_match (a :: p) s ↔ ∃ c t, s = c :: t ∧ (a = '?' ∨ a = c) ∧ glob_match p t := by
  constructor
  · intro h
    cases h with
    | star _ _ _ _ => exact absurd rfl ha
    | any _ c t h => exact ⟨c, t, rfl, Or.inl rfl, h⟩
    | same _ _ t _ _ h => exact ⟨a, t, rfl, Or.inr rfl, h⟩
  · rintro ⟨c, t, rfl, hac, h⟩
    by_cases hq : a = '?'
    · subst hq; exact glob_match.any p c t h
    · rcases hac with hac | hac
      · exact absurd hac hq
      · subst hac; exact glob_match.same a p t ha hq h

theorem glob_star_absorb (p u t : List Char) (h : glob_match ('*' :: p) t) :
    glob_match ('*' :: p) (u ++ t) := by
  rcases (glob_star_iff p t).1 h with ⟨a, c, rfl, hc⟩
  rw [← List.append_assoc]
  exact glob_match.star p (u ++ a) c hc

theorem glob_star_unfold (p : List Char) (c : Char) (t : List Char) :
    glob_match ('*' :: p) (c :: t) ↔ glob_match p (c :: t) ∨ glob_match ('*' :: p) t := by
  constructor
  · intro h
    rcases (glob_star_iff p _).1 h with ⟨a, d, hs, hd⟩
    cases a with
    | nil => simp at hs; subst hs; exact Or.inl hd
    | cons x a =>
      simp at hs
      obtain ⟨rfl, rfl⟩ := hs
      exact Or.inr (glob_match.star p a d hd)
  · rintro (h | h)
    · exact glob_match.star p [] _ h
    · exact glob_star_absorb p [c] t h

theorem seg_length {m n : List Char} (h : seg m n) : m.length = n.length :=
  List.Forall₂.length_eq h

theorem seg_snoc {m n : List Char} (h : seg m n) (a c : Char) (ha : a ≠ '*')
    (hac : a = '?' ∨ a = c) : seg (m ++ [a]) (n ++ [c]) := by
  unfold seg at *
  exact List.rel_append h (List.Forall₂.cons ⟨ha, hac⟩ List.Forall₂.nil)

theorem glob_seg_append {m n : List Char} (h : seg m n) (p s : List Char) :
    glob_match (m ++ p) (n ++ s) ↔ glob_match p s := by
  unfold seg at h
  induction h with
  | nil => simp
  | @cons a c m n hac _ ih =>
    rw [List.cons_append, List.cons_append, glob_cons_iff _ _ _ hac.1]
    constructor
    · rintro ⟨c', t, hs, _, ht⟩
      simp at hs
      obtain ⟨rfl, rfl⟩ := hs
      exact ih.1 ht
    · intro hps
      exact ⟨c, n ++ s, rfl, hac.2, ih.2 hps⟩

theorem glob_seg_split {m n : List Char} (h : seg m n) (q s : List Char)
    (hg : glob_match (m ++ q) s) : ∃ b c, s = b ++ c ∧ b.length = n.length ∧ glob_match q c := by
  unfold seg at h
  induction h generalizing s with
  | nil => exact ⟨[], s, rfl, rfl, by simpa using hg⟩
  | @cons a c m n hac _ ih =>
    rw [List.cons_append, glob_cons_iff _ _ _ hac.1] at hg
    obtain ⟨c', t, rfl, _, ht⟩ := hg
    obtain ⟨b, d, rfl, hb, hd⟩ := ih t ht
    exact ⟨c' :: b, d, rfl, by simp [hb], hd⟩

/-- What is left of a match of `* m q` against `n s` when `m` covers `n`. -/
theorem glob_star_seg {m n : List Char} (h : seg m n) (q s : List Char)
    (hg : glob_match ('*' :: (m ++ q)) (n ++ s)) : ∃ e d, s = e ++ d ∧ glob_match q d := by
  rcases (glob_star_iff _ _).1 hg with ⟨a, c, hs, hc⟩
  obtain ⟨b, d, rfl, hb, hd⟩ := glob_seg_split h q c hc
  rw [← List.append_assoc] at hs
  have hlen : n.length ≤ (a ++ b).length := by simp [hb]
  rcases List.append_eq_append_iff.1 hs with ⟨a', h1, h2⟩ | ⟨c', h1, h2⟩
  · exact ⟨a', d, h2, hd⟩
  · have : c' = [] := by
      have := congrArg List.length h1
      simp at this
      simp at hlen
      apply List.eq_nil_of_length_eq_zero
      omega
    subst this
    exact ⟨[], d, by simpa using h2.symm, hd⟩

theorem glob_star_cross {m n : List Char} (h : seg m n) (q s : List Char) :
    glob_match ('*' :: (m ++ '*' :: q)) (n ++ s) ↔ glob_match ('*' :: q) s := by
  constructor
  · intro hg
    obtain ⟨e, d, rfl, hd⟩ := glob_star_seg h _ _ hg
    exact glob_star_absorb q e d hd
  · intro hg
    exact glob_match.star _ [] _ ((glob_seg_append h _ _).2 hg)

theorem glob_star_end {m n : List Char} (h : seg m n) (q : List Char) :
    glob_match ('*' :: (m ++ q)) n ↔ glob_match q [] := by
  constructor
  · intro hg
    have hg' : glob_match ('*' :: (m ++ q)) (n ++ []) := by simpa using hg
    obtain ⟨e, d, hs, hd⟩ := glob_star_seg h _ _ hg'
    have : d = [] := by
      cases e <;> simp at hs
      exact hs
    subst this
    exact hd
  · intro hg
    have := (glob_seg_append h q []).2 hg
    simp at this
    exact glob_match.star _ [] _ this


theorem NUL_ne_star : NUL ≠ '*' := by decide
theorem NUL_ne_qmark : NUL ≠ '?' := by decide

theorem nul_free_cons {x : Char} {l : List Char} (h : NUL ∉ x :: l) : x ≠ NUL ∧ NUL ∉ l := by
  simp at h
  exact ⟨fun e => h.1 e.symm, h.2⟩

theorem first_loop_spec : ∀ (fuel : Nat) (inp pat : List Char), NUL ∉ inp → NUL ∉ pat →
    inp.length + 1 ≤ fuel → ∃ r, first_loop fuel inp pat = some r ∧ first_post inp pat r := by
  intro fuel
  induction fuel with
  | zero => intro inp pat _ _ h; omega
  | succ fuel ih =>
    intro inp pat hi hp hf
    cases inp with
    | nil =>
      refine ⟨flow.done ([], pat), by simp [first_loop, deref], ?_⟩
      simp [first_post, hp]
    | cons x inp' =>
      obtain ⟨hx, hi'⟩ := nul_free_cons hi
      cases pat with
      | nil =>
        refine ⟨flow.returned false, ?_, ?_⟩
        · have h1 : ¬ NUL = x := fun e => hx e.symm
          simp [first_loop, deref, hx, NUL_ne_star, NUL_ne_qmark, h1]
        · simp [first_post, glob_nil_iff]
      | cons a pat' =>
        obtain ⟨ha, hp'⟩ := nul_free_cons hp
        by_cases hs : a = '*'
        · subst hs
          refine ⟨flow.done (x :: inp', '*' :: pat'), by simp [first_loop, deref, hx], ?_⟩
          simp [first_post, hi, hp]
        · by_cases hm : a ≠ x ∧ a ≠ '?'
          · refine ⟨flow.returned false, by simp [first_loop, deref, hx, hs, hm], ?_⟩
            refine ⟨rfl, ?_⟩
            rw [glob_cons_iff _ _ _ hs]
            rintro ⟨c, t, hct, hac, _⟩
            simp at hct
            rcases hac with hac | hac
            · exact hm.2 hac
            · exact hm.1 (hac.trans hct.1.symm)
          · have hf' : inp'.length + 1 ≤ fuel := by simp at hf; omega
            obtain ⟨r, hr, hpost⟩ := ih inp' pat' hi' hp' hf'
            refine ⟨r, ?_, ?_⟩
            · rw [← hr]
              simp only [first_loop, deref, List.headD_cons, List.tail_cons]
              rw [if_pos ⟨hx, hs⟩, if_neg hm]
            · have hac : a = '?' ∨ a = x := by
                by_contra hc
                push_neg at hc
                exact hm ⟨hc.2, hc.1⟩
              have hg : glob_match (a :: pat') (x :: inp') ↔ glob_match pat' inp' := by
                rw [glob_cons_iff _ _ _ hs]
                constructor
                · rintro ⟨c, t, hct, _, ht⟩
                  simp at hct
                  obtain ⟨rfl, rfl⟩ := hct
                  exact ht
                · intro ht
                  exact ⟨x, inp', rfl, hac, ht⟩
              cases r with
              | returned b =>
                simp only [first_post] at hpost ⊢
                exact ⟨hpost.1, fun h => hpost.2 (hg.1 h)⟩
              | done s =>
                obtain ⟨i, p⟩ := s
                simp only [first_post] at hpost ⊢
                obtain ⟨h1, h2, h3, h4, h5, h6⟩ := hpost
                refine ⟨hg.trans h1, h2, h3, h4, ?_, ?_⟩ <;> simp <;> omega

theorem third_loop_spec : ∀ (fuel : Nat) (pat : List Char), NUL ∉ pat → pat.length + 1 ≤ fuel →
    ∃ b, third_loop fuel pat = some b ∧ (b = true ↔ glob_match pat []) := by
  intro fuel
  induction fuel with
  | zero => intro pat _ h; omega
  | succ fuel ih =>
    intro pat hp hf
    cases pat with
    | nil =>
      refine ⟨true, by simp [third_loop, deref, NUL_ne_star], ?_⟩
      simp [glob_nil_iff]
    | cons a pat' =>
      obtain ⟨ha, hp'⟩ := nul_free_cons hp
      by_cases hs : a = '*'
      · subst hs
        have hf' : pat'.length + 1 ≤ fuel := by simp at hf; omega
        obtain ⟨b, hb, hg⟩ := ih pat' hp' hf'
        refine ⟨b, by simpa [third_loop, deref] using hb, ?_⟩
        rw [hg]
        constructor
        · intro h; exact glob_match.star pat' [] [] h
        · intro h
          rcases (glob_star_iff _ _).1 h with ⟨u, v, huv, hv⟩
          have : v = [] := by
            cases u <;> simp at huv
            exact huv
          subst this
          exact hv
      · refine ⟨false, by simp [third_loop, deref, hs, ha], ?_⟩
        simp
        rw [glob_cons_iff _ _ _ hs]
        rintro ⟨c, t, hct, _⟩
        simp at hct


theorem glob_mismatch (pat : List Char) (x : Char) (inp : List Char) (_hx : x ≠ NUL)
    (h1 : deref pat ≠ '*') (h2 : ¬ (deref pat = x ∨ deref pat = '?')) :
    ¬ glob_match pat (x :: inp) := by
  cases pat with
  | nil => simp [glob_nil_iff]
  | cons a pat' =>
    simp only [deref, List.headD_cons] at h1 h2
    rw [glob_cons_iff _ _ _ h1]
    rintro ⟨c, t, hct, hac, _⟩
    simp at hct
    rcases hac with hac | hac
    · exact h2 (Or.inr hac)
    · exact h2 (Or.inl (hac.trans hct.1.symm))

theorem second_loop_nil (fuel : Nat) (pat : List Char) (ip pp : Option (List Char)) :
    second_loop (fuel + 1) [] pat ip pp = some (flow.done pat) := by
  simp [second_loop, deref]

theorem second_loop_inv (Q : Prop) (L : Nat) : ∀ (fuel : Nat) (inp pat ip0 pp0 : List Char),
    second_inv Q inp pat ip0 pp0 → pp0.length ≤ L →
    (ip0.length + 1) * (L + 2) + pat.length + 1 ≤ fuel →
    ∃ r, second_loop fuel inp pat (some ip0) (some pp0) = some r ∧ second_post Q L r := by
  intro fuel
  induction fuel with
  | zero => intro inp pat ip0 pp0 _ _ h; omega
  | succ fuel ih =>
    intro inp pat ip0 pp0 hinv hL hf
    obtain ⟨m, n, c, hpp, hip, hseg, hQ, hnp, hni⟩ := hinv
    have hpat : NUL ∉ pat := by
      intro h; exact hnp (by rw [hpp]; exact List.mem_append_right _ h)
    have hinp : NUL ∉ inp := by
      intro h; exact hni (by rw [hip]; exact List.mem_append_right _ h)
    have hpatL : pat.length ≤ L := by
      have := congrArg List.length hpp
      simp at this
      omega
    cases inp with
    | nil =>
      refine ⟨flow.done pat, second_loop_nil _ _ _ _, ?_, hpat, hpatL⟩
      rw [hQ, hpp, hip, List.append_nil]
      exact glob_star_end hseg pat
    | cons x inp' =>
      obtain ⟨hx, hinp'⟩ := nul_free_cons hinp
      have hlen : inp'.length ≤ ip0.length := by
        have := congrArg List.length hip
        simp at this
        omega
      -- the branch that goes back to the last star
      have back : ¬ glob_match pat (x :: inp') →
          ∃ r, second_loop fuel ip0 pp0 (some ip0.tail) (some pp0) = some r ∧
            second_post Q L r := by
        intro hno
        have hQ' : Q ↔ glob_match ('*' :: pp0) ip0 := by
          rw [hQ, glob_star_unfold]
          constructor
          · rintro (h | h)
            · rw [hpp, hip] at h
              exact absurd ((glob_seg_append hseg _ _).1 h) hno
            · exact h
          · intro h; exact Or.inr h
        cases ip0 with
        | nil =>
          cases fuel with
          | zero => simp at hf
          | succ f =>
            refine ⟨flow.done pp0, second_loop_nil _ _ _ _, ?_, hnp, hL⟩
            rw [hQ']
            exact glob_star_end (m := []) (n := []) List.Forall₂.nil pp0
        | cons y ip1 =>
          apply ih
          · exact ⟨[], [], y, rfl, rfl, List.Forall₂.nil, hQ', hnp, (nul_free_cons hni).2⟩
          · exact hL
          · simp only [List.tail_cons]
            simp only [List.length_cons] at hf
            have e : (ip1.length + 1 + 1) * (L + 2) = (ip1.length + 1) * (L + 2) + (L + 2) :=
              Nat.succ_mul _ _
            rw [e] at hf
            omega
      by_cases hs : deref pat = '*'
      · -- a star
        cases pat with
        | nil => exact absurd hs NUL_ne_star
        | cons a pat' =>
          simp only [deref, List.headD_cons] at hs
          subst hs
          have hpat' : NUL ∉ pat' := (nul_free_cons hpat).2
          have hQ' : Q ↔ glob_match ('*' :: pat') (x :: inp') := by
            rw [hQ, hpp, hip]
            exact glob_star_cross hseg pat' (x :: inp')
          cases pat' with
          | nil =>
            refine ⟨flow.returned true, by simp [second_loop, deref, hx], ?_⟩
            simp only [second_post, true_iff]
            exact hQ'.2 (by simpa using glob_match.star [] (x :: inp') [] glob_match.nil)
          | cons b pat'' =>
            have hb : b ≠ NUL := (nul_free_cons hpat').1
            have hpat'L : (b :: pat'').length ≤ L := by
              simp at hpatL ⊢; omega
            obtain ⟨r, hr, hpost⟩ := ih (x :: inp') (b :: pat'') inp' (b :: pat'')
              ⟨[], [], x, rfl, rfl, List.Forall₂.nil, hQ', hpat', hinp⟩ hpat'L (by
                have := Nat.mul_le_mul_right (L + 2) (Nat.succ_le_succ hlen)
                simp only [List.length_cons] at hf ⊢
                simp only [Nat.succ_eq_add_one] at this
                omega)
            refine ⟨r, ?_, hpost⟩
            rw [← hr]
            simp [second_loop, deref, hx, hb]
      · by_cases hm : deref pat = x ∨ deref pat = '?'
        · -- one character matched
          cases pat with
          | nil =>
            simp only [deref, List.headD_nil] at hm
            rcases hm with hm | hm
            · exact absurd hm.symm hx
            · exact absurd hm NUL_ne_qmark
          | cons a pat' =>
            simp only [deref, List.headD_cons] at hs hm
            have hac : a = '?' ∨ a = x := hm.symm
            obtain ⟨r, hr, hpost⟩ := ih inp' pat' ip0 pp0
              ⟨m ++ [a], n ++ [x], c, by simp [hpp], by simp [hip], seg_snoc hseg a x hs hac,
                hQ, hnp, hni⟩ hL (by
                simp only [List.length_cons] at hf
                omega)
            refine ⟨r, ?_, hpost⟩
            rw [← hr]
            simp only [second_loop, deref, List.headD_cons, List.tail_cons]
            rw [if_pos hx, if_neg hs, if_pos hm]
        · -- a mismatch
          obtain ⟨r, hr, hpost⟩ := back (glob_mismatch pat x inp' hx hs hm)
          refine ⟨r, ?_, hpost⟩
          rw [← hr]
          simp only [second_loop, deref, List.headD_cons]
          rw [if_pos hx]
          simp only [deref] at hs hm
          rw [if_neg hs, if_neg hm]


theorem glob_literal : ∀ (p : List Char), (∀ c ∈ p, c ≠ '*' ∧ c ≠ '?') →
    ∀ s, glob_match p s ↔ s = p := by
  intro p
  induction p with
  | nil => intro _ s; exact glob_nil_iff s
  | cons a p ih =>
    intro h s
    have ha := h a (List.mem_cons_self _ _)
    have hp : ∀ c ∈ p, c ≠ '*' ∧ c ≠ '?' := fun c hc => h c (List.mem_cons_of_mem _ hc)
    rw [glob_cons_iff _ _ _ ha.1]
    constructor
    · rintro ⟨c, t, rfl, hac, ht⟩
      rcases hac with hac | hac
      · exact absurd hac ha.2
      · rw [(ih hp t).1 ht, hac]
    · rintro rfl
      exact ⟨a, p, rfl, Or.inr rfl, (ih hp p).2 rfl⟩

theorem glob_empty_input : ∀ (p : List Char), glob_match p [] ↔ ∀ c ∈ p, c = '*' := by
  intro p
  induction p with
  | nil => simp [glob_nil_iff]
  | cons a p ih =>
    by_cases ha : a = '*'
    · subst ha
      have : glob_match ('*' :: p) [] ↔ glob_match p [] := by
        simpa using glob_star_end (m := []) (n := []) List.Forall₂.nil p
      rw [this, ih]
      simp
    · constructor
      · intro h
        rw [glob_cons_iff _ _ _ ha] at h
        obtain ⟨c, t, hct, _⟩ := h
        simp at hct
      · intro h
        exact absurd (h a (List.mem_cons_self _ _)) ha

theorem wildcard_match_fuel (a_input a_pattern : List Char) (hi : NUL ∉ a_input)
    (hp : NUL ∉ a_pattern) (fuel : Nat)
    (hf : wildcard_match_bound a_input a_pattern ≤ fuel) :
    ∃ b, wildcard_match fuel a_input a_pattern = some b ∧
      (b = true ↔ glob_match a_pattern a_input) := by
  unfold wildcard_match_bound at hf
  have e : (a_input.length + 1) * (a_pattern.length + 2) =
      a_input.length * (a_pattern.length + 2) + (a_pattern.length + 2) := Nat.succ_mul _ _
  have hmul : a_input.length ≤ a_input.length * (a_pattern.length + 2) :=
    Nat.le_mul_of_pos_right _ (by omega)
  obtain ⟨r, hr, hpost⟩ := first_loop_spec fuel a_input a_pattern hi hp (by omega)
  cases r with
  | returned b =>
    refine ⟨b, by simp [wildcard_match, hr], ?_⟩
    simp only [first_post] at hpost
    rw [hpost.1]
    simp [hpost.2]
  | done s =>
    obtain ⟨i, p⟩ := s
    simp only [first_post] at hpost
    obtain ⟨hg, hstar, hni, hnp, hli, hlp⟩ := hpost
    cases fuel with
    | zero => omega
    | succ f =>
      cases i with
      | nil =>
        obtain ⟨b, hb, hbg⟩ := third_loop_spec (f + 1) p hnp (by omega)
        refine ⟨b, ?_, hbg.trans hg.symm⟩
        simp [wildcard_match, hr, second_loop_nil, hb]
      | cons x i' =>
        obtain ⟨q, rfl⟩ := hstar (by simp)
        obtain ⟨hx, hni'⟩ := nul_free_cons hni
        have hnq : NUL ∉ q := (nul_free_cons hnp).2
        cases q with
        | nil =>
          refine ⟨true, ?_, ?_⟩
          · simp [wildcard_match, hr, second_loop, deref, hx]
          · simp only [true_iff]
            exact hg.2 (by simpa using glob_match.star [] (x :: i') [] glob_match.nil)
        | cons c q' =>
          have hc : c ≠ NUL := (nul_free_cons hnq).1
          simp only [List.length_cons] at hli hlp
          have h1 : (i'.length + 1) * ((c :: q').length + 2) ≤
              a_input.length * (a_pattern.length + 2) := by
            apply Nat.mul_le_mul hli
            simp only [List.length_cons]
            omega
          obtain ⟨r2, hr2, hpost2⟩ := second_loop_inv (glob_match a_pattern a_input)
            (c :: q').length f (x :: i') (c :: q') i' (c :: q')
            ⟨[], [], x, rfl, rfl, List.Forall₂.nil, hg, hnq, hni⟩ (le_refl _) (by
              simp only [List.length_cons] at h1 ⊢
              omega)
          have hstep : second_loop (f + 1) (x :: i') ('*' :: c :: q') none none = some r2 := by
            rw [← hr2]
            simp [second_loop, deref, hx, hc]
          cases r2 with
          | returned b =>
            refine ⟨b, by simp [wildcard_match, hr, hstep], hpost2⟩
          | done p' =>
            simp only [second_post] at hpost2
            obtain ⟨hQ, hnp', hlp'⟩ := hpost2
            obtain ⟨b, hb, hbg⟩ := third_loop_spec (f + 1) p' hnp' (by
              simp only [List.length_cons] at hlp'
              omega)
            refine ⟨b, ?_, hbg.trans hQ.symm⟩
            simp [wildcard_match, hr, hstep, hb]

/-- C10: `wildcard_match` terminates and decides the reference glob semantics.
For every input and pattern without NUL among their characters there is one
result that the function returns for every number of allowed iterations from
`wildcard_match_bound` on, and it is true exactly when the whole input matches
the whole pattern; a pattern without `*` and `?` matches only the identical
input, and the empty input is matched exactly by the patterns made of `*`
only. -/
theorem wildcard_match_spec (a_input a_pattern : List Char) (hi : NUL ∉ a_input)
    (hp : NUL ∉ a_pattern) :
    ∃ b, (∀ fuel, wildcard_match_bound a_input a_pattern ≤ fuel →
        wildcard_match fuel a_input a_pattern = some b) ∧
      (b = true ↔ glob_match a_pattern a_input) ∧
      ((∀ c ∈ a_pattern, c ≠ '*' ∧ c ≠ '?') → (b = true ↔ a_input = a_pattern)) ∧
      (a_input = [] → (b = true ↔ ∀ c ∈ a_pattern, c = '*')) := by
  obtain ⟨b, _, hbg⟩ := wildcard_match_fuel a_input a_pattern hi hp _ (le_refl _)
  refine ⟨b, ?_, hbg, ?_, ?_⟩
  · intro fuel hf
    obtain ⟨b', hb', hbg'⟩ := wildcard_match_fuel a_input a_pattern hi hp fuel hf
    have : b' = b := by
      have : (b' = true) ↔ (b = true) := hbg'.trans hbg.symm
      cases b <;> cases b' <;> simp_all
    rw [hb', this]
  · intro hlit
    rw [hbg]
    exact glob_literal a_pattern hlit a_input
  · rintro rfl
    rw [hbg]
    exact glob_empty_input a_pattern

/-- C10 at the input `abcabd` and the pattern `a*ab?`. -/
theorem wildcard_match_spec_witness :
    ∃ b, (∀ fuel, wildcard_match_bound "abcabd".data "a*ab?".data ≤ fuel →
        wildcard_match fuel "abcabd".data "a*ab?".data = some b) ∧
      (b = true ↔ glob_match "a*ab?".data "abcabd".data) ∧
      ((∀ c ∈ "a*ab?".data, c ≠ '*' ∧ c ≠ '?') → (b = true ↔ "abcabd".data = "a*ab?".data)) ∧
      ("abcabd".data = [] → (b = true ↔ ∀ c ∈ "a*ab?".data, c = '*')) :=
  wildcard_match_spec "abcabd".data "a*ab?".data (by decide) (by decide)

/-! ## Theorems: read_scon -/

/-- The stream overload when the reader throws. -/
theorem read_scon_of_error (scon_reader : scon_reader_fn) (s : stream) (a_tree : variant_tree)
    (a_filename : String) (r : resolver_fn) (e : error)
    (h : scon_reader s variant_tree.empty a_filename 0 "" 0 r = Except.error e) :
    read_scon scon_reader s a_tree a_filename r = (Except.error e, a_tree) := by
  simp [read_scon, h]

/-- The stream overload when the reader returns. -/
theorem read_scon_of_ok (scon_reader : scon_reader_fn) (s : stream) (a_tree : variant_tree)
    (a_filename : String) (r : resolver_fn) (t : variant_tree)
    (h : scon_reader s variant_tree.empty a_filename 0 "" 0 r = Except.ok t) :
    read_scon scon_reader s a_tree a_filename r = (Except.ok (), t) := by
  simp [read_scon, h]

/-- C1: atomicity of `read_scon`.  For every reader, stream, file, resolver and
prior destination: when the stream overload fails the destination is the prior
tree; it succeeds exactly when the reader succeeds, and the destination is then
the tree the reader built; the file overload fails with "cannot open file for
reading" and the prior destination when the file cannot be opened, is the
stream overload on the opened file otherwise, and leaves the prior destination
whenever it fails. -/
theorem read_scon_atomic (open_in : String → stream) (scon_reader : scon_reader_fn)
    (a_stream : stream) (a_filename : String) (a_tree : variant_tree)
    (a_inc_filename_resolver : resolver_fn) :
    (∀ e, (read_scon scon_reader a_stream a_tree a_filename a_inc_filename_resolver).1 =
        Except.error e →
      scon_reader a_stream variant_tree.empty a_filename 0 "" 0 a_inc_filename_resolver =
        Except.error e ∧
      (read_scon scon_reader a_stream a_tree a_filename a_inc_filename_resolver).2 = a_tree) ∧
    ((read_scon scon_reader a_stream a_tree a_filename a_inc_filename_resolver).1 =
        Except.ok () →
      scon_reader a_stream variant_tree.empty a_filename 0 "" 0 a_inc_filename_resolver =
        Except.ok
          (read_scon scon_reader a_stream a_tree a_filename a_inc_filename_resolver).2) ∧
    ((open_in a_filename).not = true →
      read_scon_file open_in scon_reader a_filename a_tree a_inc_filename_resolver =
        (Except.error (error.file_parser_error "cannot open file for reading" a_filename 0),
          a_tree)) ∧
    ((open_in a_filename).not = false →
      read_scon_file open_in scon_reader a_filename a_tree a_inc_filename_resolver =
        read_scon scon_reader (open_in a_filename) a_tree a_filename
          a_inc_filename_resolver) ∧
    (∀ e, (read_scon_file open_in scon_reader a_filename a_tree a_inc_filename_resolver).1 =
        Except.error e →
      (read_scon_file open_in scon_reader a_filename a_tree a_inc_filename_resolver).2 =
        a_tree) := by
  have key : ∀ (s : stream) (e : error),
      (read_scon scon_reader s a_tree a_filename a_inc_filename_resolver).1 = Except.error e →
      scon_reader s variant_tree.empty a_filename 0 "" 0 a_inc_filename_resolver =
        Except.error e ∧
      (read_scon scon_reader s a_tree a_filename a_inc_filename_resolver).2 = a_tree := by
    intro s e h
    cases hr : scon_reader s variant_tree.empty a_filename 0 "" 0 a_inc_filename_resolver with
    | error e' =>
      rw [read_scon_of_error _ _ _ _ _ _ hr] at h ⊢
      simp only [Except.error.injEq] at h
      subst h
      exact ⟨rfl, rfl⟩
    | ok t =>
      rw [read_scon_of_ok _ _ _ _ _ _ hr] at h
      cases h
  refine ⟨key a_stream, ?_, ?_, ?_, ?_⟩
  · intro h
    cases hr : scon_reader a_stream variant_tree.empty a_filename 0 "" 0
        a_inc_filename_resolver with
    | error e' =>
      rw [read_scon_of_error _ _ _ _ _ _ hr] at h
      cases h
    | ok t =>
      rw [read_scon_of_ok _ _ _ _ _ _ hr]
  · intro h
    simp [read_scon_file, h]
  · intro h
    simp [read_scon_file, h]
  · intro e h
    unfold read_scon_file at h ⊢
    cases hn : (open_in a_filename).not with
    | true => simp [hn]
    | false =>
      simp only [hn] at h ⊢
      exact (key (open_in a_filename) e h).2

/-! ## Theorems: the adapters -/

/-- What the adapters do when the grammar parser accepts the source and the
translating pass fails: the call fails, and the destination is the parsed tree
as the translating pass left it. -/
theorem read_adapters_translate_failure {Source : Type} (parse : grammar_reader Source)
    (xml_parse : Source → variant_tree → Int → tree_call) (translate_data : translate_fn)
    (a_src : Source) (a_tree pt pt' : variant_tree) (a_flags : Int) (e : error)
    (hp : parse a_src a_tree = (Except.ok (), pt))
    (hx : xml_parse a_src a_tree a_flags = (Except.ok (), pt))
    (ht : translate_data pt = (Except.error e, pt')) :
    read_ini parse translate_data a_src a_tree 0 = (Except.error e, pt') ∧
    read_info parse translate_data a_src a_tree = (Except.error e, pt') ∧
    read_xml xml_parse translate_data a_src a_tree a_flags = (Except.error e, pt') := by
  simp [read_ini, read_info, read_xml, hp, hx, ht]

/-- What the adapters do when the grammar parser fails: the destination is the
tree as the grammar parser left it. -/
theorem read_adapters_grammar_failure {Source : Type} (parse : grammar_reader Source)
    (xml_parse : Source → variant_tree → Int → tree_call) (translate_data : translate_fn)
    (a_src : Source) (a_tree pt : variant_tree) (a_flags : Int) (e : error)
    (hp : parse a_src a_tree = (Except.error e, pt))
    (hx : xml_parse a_src a_tree a_flags = (Except.error e, pt)) :
    read_ini parse translate_data a_src a_tree 0 = (Except.error e, pt) ∧
    read_info parse translate_data a_src a_tree = (Except.error e, pt) ∧
    read_xml xml_parse translate_data a_src a_tree a_flags = (Except.error e, pt) := by
  simp [read_ini, read_info, read_xml, hp, hx]

/-- The translating pass modelled from the spec returns on every tree. -/
theorem translate_data_total (t : variant_tree) : (translate_data t).1 = Except.ok () := rfl

/-- The adapters at the sample source that fails and at one that is accepted:
the failing call keeps the prior destination, the accepted one stores the
translated tree. -/
theorem read_ini_samples :
    read_ini sample_parse translate_data "bad" sample_old_tree 0 =
      (Except.error (error.file_parser_error "syntax error" "bad" 1), sample_old_tree) ∧
    read_ini sample_parse translate_data "a.ini" sample_old_tree 0 =
      (Except.ok (), variant_tree.node variant.null
        [("key", variant_tree.node (variant.string "1.5x") []),
          ("count", variant_tree.node (variant.int 123) [])]) := by
  constructor
  · simp [read_ini, sample_parse]
  · simp [read_ini, sample_parse, translate_data, sample_parsed_tree, translate_tree,
      translate_children, translate_text, digits_value]

/-! ## Theorems: read_config_file -/

/-- C3: `read_config_file` chooses the reader by exact comparison of the
extension: `.config`, `.conf`, `.cfg`, `.scon` give the outcome of the file
overload of `read_scon` with the resolver of the caller, `.ini` the outcome of
`read_ini`, `.xml` the outcome of `read_xml` with the flags of the caller; an
extension that equals one of the six only after lowering its letters, such as
`.INI` or `.Xml`, selects no reader. -/
theorem read_config_file_dispatch (rd : readers) (a_filename : String) (a_tree : variant_tree)
    (a_inc_filename_resolver : resolver_fn) (a_flags : Int) :
    ((rd.fs.extension a_filename = ".config" ∨ rd.fs.extension a_filename = ".conf" ∨
        rd.fs.extension a_filename = ".cfg" ∨ rd.fs.extension a_filename = ".scon") →
      read_config_file rd a_filename a_tree a_inc_filename_resolver a_flags =
        read_scon_file rd.open_in rd.scon_reader a_filename a_tree a_inc_filename_resolver) ∧
    (rd.fs.extension a_filename = ".ini" →
      read_config_file rd a_filename a_tree a_inc_filename_resolver a_flags =
        read_ini rd.ini_parse rd.translate_data a_filename a_tree 0) ∧
    (rd.fs.extension a_filename = ".xml" →
      read_config_file rd a_filename a_tree a_inc_filename_resolver a_flags =
        read_xml rd.xml_parse rd.translate_data a_filename a_tree a_flags) ∧
    ((rd.fs.extension a_filename).toLower ∈ [".config", ".conf", ".cfg", ".scon", ".ini", ".xml"] →
      rd.fs.extension a_filename ∉ [".config", ".conf", ".cfg", ".scon", ".ini", ".xml"] →
      read_config_file rd a_filename a_tree a_inc_filename_resolver a_flags =
        (Except.error (error.runtime_error "Configuration file extension not supported!"),
          a_tree)) ∧
    ((rd.fs.extension a_filename = ".INI" ∨ rd.fs.extension a_filename = ".Xml") →
      read_config_file rd a_filename a_tree a_inc_filename_resolver a_flags =
        (Except.error (error.runtime_error "Configuration file extension not supported!"),
          a_tree)) := by
  refine ⟨?_, ?_, ?_, ?_, ?_⟩
  · intro h
    simp only [read_config_file]
    rw [if_pos h]
  · intro h
    simp [read_config_file, h]
  · intro h
    simp [read_config_file, h]
  · intro _ h
    simp only [List.mem_cons, List.mem_singleton, List.not_mem_nil, or_false, not_or] at h
    obtain ⟨h1, h2, h3, h4, h5, h6⟩ := h
    simp [read_config_file, h1, h2, h3, h4, h5, h6]
  · intro h
    rcases h with h | h <;> simp [read_config_file, h]

/-- C4: when the extension of the path is none of `.config`, `.conf`, `.cfg`,
`.scon`, `.ini`, `.xml`, `read_config_file` fails with the error "Configuration
file extension not supported!" and the destination is the prior tree; the
outcome is the same whatever the readers, the resolver and the flags are, so
none of them takes part in it. -/
theorem read_config_file_unsupported (rd : readers) (a_filename : String)
    (a_tree : variant_tree) (a_inc_filename_resolver : resolver_fn) (a_flags : Int)
    (h : rd.fs.extension a_filename ∉ [".config", ".conf", ".cfg", ".scon", ".ini", ".xml"]) :
    read_config_file rd a_filename a_tree a_inc_filename_resolver a_flags =
      (Except.error (error.runtime_error "Configuration file extension not supported!"),
        a_tree) ∧
    ∀ (rd' : readers) (r' : resolver_fn) (flags' : Int),
      rd'.fs.extension a_filename = rd.fs.extension a_filename →
      read_config_file rd' a_filename a_tree r' flags' =
        read_config_file rd a_filename a_tree a_inc_filename_resolver a_flags := by
  simp only [List.mem_cons, List.mem_singleton, List.not_mem_nil, or_false, not_or] at h
  obtain ⟨h1, h2, h3, h4, h5, h6⟩ := h
  constructor
  · simp [read_config_file, h1, h2, h3, h4, h5, h6]
  · intro rd' r' flags' he
    simp [read_config_file, he, h1, h2, h3, h4, h5, h6]

/-- C4 at a path without extension, `README`, and a destination that holds a
value. -/
theorem read_config_file_unsupported_witness :
    read_config_file sample_readers "README" sample_old_tree sample_resolver 0 =
      (Except.error (error.runtime_error "Configuration file extension not supported!"),
        sample_old_tree) ∧
    ∀ (rd' : readers) (r' : resolver_fn) (flags' : Int),
      rd'.fs.extension "README" = sample_readers.fs.extension "README" →
      read_config_file rd' "README" sample_old_tree r' flags' =
        read_config_file sample_readers "README" sample_old_tree sample_resolver 0 :=
  read_config_file_unsupported sample_readers "README" sample_old_tree sample_resolver 0
    (by decide)

/-! ## Theorems: inc_file_resolver -/

/-- The loop returns false exactly when no directory holds the name. -/
theorem search_false_iff (fs : filesystem) (name a_filename : String) (dirs : List String) :
    (inc_file_resolver.search fs name a_filename dirs).1 = false ↔
      ∀ d ∈ dirs, fs.file_exists (fs.append d name) = false := by
  induction dirs with
  | nil => simp [inc_file_resolver.search]
  | cons it rest ih =>
    cases hx : fs.file_exists (fs.append it name) with
    | true => simp [inc_file_resolver.search, hx]
    | false => simp [inc_file_resolver.search, hx, ih]

/-- When the loop returns false the file name is the one it received. -/
theorem search_false_filename (fs : filesystem) (name a_filename : String)
    (dirs : List String) (h : (inc_file_resolver.search fs name a_filename dirs).1 = false) :
    (inc_file_resolver.search fs name a_filename dirs).2 = a_filename := by
  induction dirs with
  | nil => simp [inc_file_resolver.search]
  | cons it rest ih =>
    cases hx : fs.file_exists (fs.append it name) with
    | true => simp [inc_file_resolver.search, hx] at h
    | false =>
      simp only [inc_file_resolver.search, hx] at h ⊢
      exact ih h

/-- When some directory holds the name the loop stops at the first one. -/
theorem search_first (fs : filesystem) (name a_filename : String) (dirs : List String)
    (h : ∃ d ∈ dirs, fs.file_exists (fs.append d name) = true) :
    ∃ (i : Nat) (d : String), dirs[i]? = some d ∧ fs.file_exists (fs.append d name) = true ∧
      (∀ (j : Nat) (d' : String), j < i → dirs[j]? = some d' → fs.file_exists (fs.append d' name) = false) ∧
      inc_file_resolver.search fs name a_filename dirs = (true, fs.append d name) := by
  induction dirs with
  | nil => simp at h
  | cons it rest ih =>
    cases hx : fs.file_exists (fs.append it name) with
    | true =>
      refine ⟨0, it, by simp, hx, ?_, ?_⟩
      · intro j d' hj; omega
      · simp [inc_file_resolver.search, hx]
    | false =>
      have h' : ∃ d ∈ rest, fs.file_exists (fs.append d name) = true := by
        obtain ⟨d, hd, hdx⟩ := h
        rcases List.mem_cons.1 hd with rfl | hd
        · rw [hx] at hdx; cases hdx
        · exact ⟨d, hd, hdx⟩
      obtain ⟨i, d, hi, hd, hmin, hs⟩ := ih h'
      refine ⟨i + 1, d, by simpa using hi, hd, ?_, ?_⟩
      · intro j d' hj hjd
        cases j with
        | zero =>
          simp at hjd
          subst hjd
          exact hx
        | succ j => exact hmin j d' (by omega) (by simpa using hjd)
      · simp [inc_file_resolver.search, hx, hs]

/-- C5: first match wins.  For a relative file name that some configured
directory holds, the resolver returns true and the file name becomes
`dirs[i]/filename` for the smallest index `i` whose `dirs[i]/filename` exists;
with the directories `[A, B]` and `A/filename` existing the result is
`A/filename`. -/
theorem inc_file_resolver_first_match (fs : filesystem) (self : inc_file_resolver)
    (a_filename : String) (hrel : fs.is_absolute a_filename = false)
    (hex : ∃ d ∈ self.m_dirs, fs.file_exists (fs.append d a_filename) = true) :
    (∃ (i : Nat) (d : String), self.m_dirs[i]? = some d ∧ fs.file_exists (fs.append d a_filename) = true ∧
      (∀ (j : Nat) (d' : String), j < i → self.m_dirs[j]? = some d' →
        fs.file_exists (fs.append d' a_filename) = false) ∧
      inc_file_resolver.call fs self a_filename = (true, fs.append d a_filename, self)) ∧
    (∀ A B, self.m_dirs = [A, B] → fs.file_exists (fs.append A a_filename) = true →
      inc_file_resolver.call fs self a_filename = (true, fs.append A a_filename, self)) := by
  have hname : inc_file_resolver.name fs a_filename = a_filename := by
    simp [inc_file_resolver.name, hrel]
  constructor
  · obtain ⟨i, d, hi, hd, hmin, hs⟩ := search_first fs a_filename a_filename self.m_dirs hex
    exact ⟨i, d, hi, hd, hmin, by simp [inc_file_resolver.call, hname, hs]⟩
  · intro A B hAB hA
    simp [inc_file_resolver.call, hname, hAB, inc_file_resolver.search, hA]

/-- C5 at the directories `[A, B]` that both hold `x.conf`. -/
theorem inc_file_resolver_first_match_witness :
    (∃ (i : Nat) (d : String), (inc_file_resolver.mk ["A", "B"]).m_dirs[i]? = some d ∧
      (posix ["A/x.conf", "B/x.conf"]).file_exists
        ((posix ["A/x.conf", "B/x.conf"]).append d "x.conf") = true ∧
      (∀ (j : Nat) (d' : String), j < i → (inc_file_resolver.mk ["A", "B"]).m_dirs[j]? = some d' →
        (posix ["A/x.conf", "B/x.conf"]).file_exists
          ((posix ["A/x.conf", "B/x.conf"]).append d' "x.conf") = false) ∧
      inc_file_resolver.call (posix ["A/x.conf", "B/x.conf"]) (inc_file_resolver.mk ["A", "B"])
          "x.conf" =
        (true, (posix ["A/x.conf", "B/x.conf"]).append d "x.conf",
          inc_file_resolver.mk ["A", "B"])) ∧
    (∀ A B, (inc_file_resolver.mk ["A", "B"]).m_dirs = [A, B] →
      (posix ["A/x.conf", "B/x.conf"]).file_exists
        ((posix ["A/x.conf", "B/x.conf"]).append A "x.conf") = true →
      inc_file_resolver.call (posix ["A/x.conf", "B/x.conf"]) (inc_file_resolver.mk ["A", "B"])
          "x.conf" =
        (true, (posix ["A/x.conf", "B/x.conf"]).append A "x.conf",
          inc_file_resolver.mk ["A", "B"])) :=
  inc_file_resolver_first_match (posix ["A/x.conf", "B/x.conf"]) (inc_file_resolver.mk ["A", "B"])
    "x.conf" (by decide) ⟨"A", by decide, by decide⟩

/-- The name searched for an absolute file name is what
`boost::filesystem::basename` returns for it. -/
theorem name_of_absolute (fs : filesystem) (a_filename : String)
    (h : fs.is_absolute a_filename = true) :
    inc_file_resolver.name fs a_filename = fs.basename a_filename := by
  simp [inc_file_resolver.name, h]

/-- C6: for the absolute file name `/tmp/foo.conf` the name searched is `foo`,
the extension being dropped by `boost::filesystem::basename`: with the
directory `D` holding `foo.conf` the resolver returns false and leaves the file
name, and it is a file `D/foo` that it would find. -/
theorem inc_file_resolver_absolute_drops_extension :
    (posix ["D/foo.conf"]).is_absolute "/tmp/foo.conf" = true ∧
    inc_file_resolver.name (posix ["D/foo.conf"]) "/tmp/foo.conf" = "foo" ∧
    (posix ["D/foo.conf"]).file_exists ((posix ["D/foo.conf"]).append "D" "foo.conf") = true ∧
    inc_file_resolver.call (posix ["D/foo.conf"]) (inc_file_resolver.mk ["D"]) "/tmp/foo.conf" =
      (false, "/tmp/foo.conf", inc_file_resolver.mk ["D"]) ∧
    inc_file_resolver.call (posix ["D/foo"]) (inc_file_resolver.mk ["D"]) "/tmp/foo.conf" =
      (true, "D/foo", inc_file_resolver.mk ["D"]) := by
  refine ⟨by decide, by decide, by decide, by decide, by decide⟩

/-- C7: the resolver returns false exactly when no configured directory holds
the searched name, so always for the empty list of directories; when it returns
false the file name is the one passed in; the resolver object, and with it the
list of directories, is the same after the call. -/
theorem inc_file_resolver_failure (fs : filesystem) (self : inc_file_resolver)
    (a_filename : String) :
    ((inc_file_resolver.call fs self a_filename).1 = false ↔
      ∀ d ∈ self.m_dirs,
        fs.file_exists (fs.append d (inc_file_resolver.name fs a_filename)) = false) ∧
    ((inc_file_resolver.call fs self a_filename).1 = false →
      (inc_file_resolver.call fs self a_filename).2.1 = a_filename) ∧
    (inc_file_resolver.call fs self a_filename).2.2 = self ∧
    (inc_file_resolver.call fs self a_filename).2.2.m_dirs = self.m_dirs ∧
    (inc_file_resolver.call fs (inc_file_resolver.mk []) a_filename).1 = false := by
  refine ⟨?_, ?_, rfl, rfl, rfl⟩
  · exact search_false_iff fs _ a_filename self.m_dirs
  · exact search_false_filename fs _ a_filename self.m_dirs

/-! ## Theorems: write_scon -/

/-- C8: the file overload of `write_scon` fails with "cannot open file for
writing" and the name of the target when the file cannot be opened, the stream
being left as it was opened; when the file was opened and the tree has been
written, it fails with "write error" and the name of the target exactly when
the stream is not good after the writing, and succeeds when the stream is
good; an exception of the writing itself leaves the function as it is. -/
theorem write_scon_file_errors (open_out : String → stream) (dump : dump_fn)
    (a_filename : String) (a_tree : variant_tree) (a_settings : scon_writer_settings) :
    ((open_out a_filename).not = true →
      write_scon_file open_out dump a_filename a_tree a_settings =
        (Except.error (error.file_parser_error "cannot open file for writing" a_filename 0),
          open_out a_filename)) ∧
    ((open_out a_filename).not = false → ∀ s,
      write_scon dump (open_out a_filename) a_tree a_settings = (Except.ok (), s) →
      ((write_scon_file open_out dump a_filename a_tree a_settings).1 =
          Except.error (error.file_parser_error "write error" a_filename 0) ↔
        s.good = false) ∧
      ((write_scon_file open_out dump a_filename a_tree a_settings).1 = Except.ok () ↔
        s.good = true) ∧
      (write_scon_file open_out dump a_filename a_tree a_settings).2 = s) ∧
    ((open_out a_filename).not = false → ∀ e s,
      write_scon dump (open_out a_filename) a_tree a_settings = (Except.error e, s) →
      write_scon_file open_out dump a_filename a_tree a_settings = (Except.error e, s)) := by
  refine ⟨?_, ?_, ?_⟩
  · intro h
    simp [write_scon_file, h]
  · intro h s hw
    cases hg : s.good with
    | true => simp [write_scon_file, h, hw, hg]
    | false => simp [write_scon_file, h, hw, hg]
  · intro h e s hw
    simp [write_scon_file, h, hw]

/-! ## Theorems: scon_writer_settings -/

/-- C9, as the claim states it, fails: the `unsigned` argument 4294967295 is
stored as the `int` -1, which is neither non-negative nor equal to the
argument. -/
theorem scon_writer_settings_tab_width_negative :
    (scon_writer_settings.ctor 4294967295 false true ' ').tab_width = -1 ∧
    ¬ (0 ≤ (scon_writer_settings.ctor 4294967295 false true ' ').tab_width ∧
      (scon_writer_settings.ctor 4294967295 false true ' ').tab_width = 4294967295) := by
  decide

/-- C9, amended: for every tab width argument below 2^31 the stored
`tab_width` equals the argument and is non-negative; the stored value, whatever
it is, is what `write_scon` passes to the dump of the tree; with no argument
the settings are tab width 2, no types, braces, and a space to indent. -/
theorem scon_writer_settings_tab_width (a_tab_width : Nat) (a_show_types a_show_braces : Bool)
    (a_indent_char : Char) (h : a_tab_width < 2 ^ 31) :
    (scon_writer_settings.ctor a_tab_width a_show_types a_show_braces a_indent_char).tab_width =
      (a_tab_width : Int) ∧
    0 ≤ (scon_writer_settings.ctor a_tab_width a_show_types a_show_braces
      a_indent_char).tab_width ∧
    (∀ (dump : dump_fn) (a_stream : stream) (a_tree : variant_tree)
        (a_settings : scon_writer_settings),
      write_scon dump a_stream a_tree a_settings =
        dump a_tree a_stream a_settings.tab_width a_settings.show_types a_settings.show_braces
          a_settings.indent_char) ∧
    scon_writer_settings.ctor_default = scon_writer_settings.mk 2 false true ' ' := by
  have h1 : a_tab_width % 2 ^ 32 = a_tab_width := Nat.mod_eq_of_lt (by omega)
  have e : (scon_writer_settings.ctor a_tab_width a_show_types a_show_braces
      a_indent_char).tab_width = (a_tab_width : Int) := by
    simp only [scon_writer_settings.ctor, unsigned_to_int, h1]
    rw [if_pos h]
  refine ⟨e, ?_, ?_, ?_⟩
  · rw [e]
    exact Int.natCast_nonneg _
  · intro dump a_stream a_tree a_settings
    rfl
  · decide

/-- C9, amended, at the tab width 4. -/
theorem scon_writer_settings_tab_width_witness :
    (scon_writer_settings.ctor 4 true false ' ').tab_width = ((4 : Nat) : Int) ∧
    0 ≤ (scon_writer_settings.ctor 4 true false ' ').tab_width ∧
    (∀ (dump : dump_fn) (a_stream : stream) (a_tree : variant_tree)
        (a_settings : scon_writer_settings),
      write_scon dump a_stream a_tree a_settings =
        dump a_tree a_stream a_settings.tab_width a_settings.show_types a_settings.show_braces
          a_settings.indent_char) ∧
    scon_writer_settings.ctor_default = scon_writer_settings.mk 2 false true ' ' :=
  scon_writer_settings_tab_width 4 true false ' ' (by decide)

end utxx
